import Mathlib

/-!
Shallow embedding of the daily on/off-hours engine of the repository
(files integrated_main.py and integrated_runonce.py).

Modelling conventions, fixed once for the whole file:
* Channel values are rationals; pandas NaN (a missing value, or the result of
  extracting an absent channel) is modelled as `none : Option ℚ`.  Every
  comparison with `none` is `false`, exactly the IEEE comparison semantics of
  NaN that pandas uses.
* Timestamps are rationals, counted in seconds since an arbitrary epoch;
  the pandas calendar date of a timestamp t is the floor of t / 86400.
* The while-loops of the source advance a cursor through a day's readings and
  each iteration strictly increases the cursor, so a loop over a list g makes
  at most g.length iterations; the loops are therefore embedded as
  structurally recursive functions on a fuel argument instantiated with
  g.length, which is exact whenever the configured window is positive.
* pandas sort_values uses an unstable quicksort whose order on equal keys is
  unspecified; the embedding fixes a stable order (insertion sort).
-/

set_option linter.unusedVariables false

set_option allowUnsafeReducibility true in
attribute [semireducible] Rat.mul Rat.add Rat.sub Rat.inv

/-- Comparison v > t where v may be NaN (strictly greater, false on NaN). -/
def vgtB (v : Option ℚ) (t : ℚ) : Bool :=
  match v with
  | none => false
  | some x => decide (t < x)

/-- Comparison v < t where v may be NaN (strictly less, false on NaN). -/
def vltB (v : Option ℚ) (t : ℚ) : Bool :=
  match v with
  | none => false
  | some x => decide (x < t)

/-- Comparison v <= t where v may be NaN (false on NaN). -/
def vleB (v : Option ℚ) (t : ℚ) : Bool :=
  match v with
  | none => false
  | some x => decide (x ≤ t)

/-- Threshold configuration passed to process_vibration_data in both files. -/
structure VibConfig where
  positive_threshold : ℚ
  negative_threshold : ℚ
  window_size : ℕ
  max_vibration : ℚ
  consecutive_off_count : ℕ
  deriving Repr, DecidableEq

/-- Seconds in the coalescing window: pd.Timedelta(minutes=window_size). -/
def windowSeconds (cfg : VibConfig) : ℚ := 60 * cfg.window_size

/-- SignalCleaner: values with magnitude above 7 are replaced by 0
(integrated_main.py lines 147-154, integrated_runonce.py lines 100-107). -/
def cleanValue (x : ℚ) : ℚ := if 7 < x ∨ x < -7 then 0 else x

/-- Per-value pipeline of integrated_main.py: fillna(0) (line 143) and then the
magnitude clamp, so an absent value enters the engine as 0. -/
def cleanMain (v : Option ℚ) : Option ℚ := some (cleanValue (v.getD 0))

/-- Per-value pipeline of integrated_runonce.py: no fillna, so an absent value
stays NaN; the clamp mask (NaN > 7) | (NaN < -7) is false on NaN, which
leaves NaN untouched. -/
def cleanRun (v : Option ℚ) : Option ℚ :=
  match v with
  | none => none
  | some x => some (cleanValue x)

/-- StateClassifier, integrated_main.py line 158 / integrated_runonce.py
line 111: ON iff value > positive_threshold or value < negative_threshold. -/
def isOn (cfg : VibConfig) (v : Option ℚ) : Bool :=
  vgtB v cfg.positive_threshold || vltB v cfg.negative_threshold

/-- One reading of a single day's group: its timestamp (seconds) and the
cleaned value of the designated channel. -/
structure DayReading where
  time : ℚ
  v : Option ℚ
  deriving Repr, DecidableEq

/-- Order on readings used by sort_values('time'). -/
def timeLE (a b : DayReading) : Prop := a.time ≤ b.time

instance : DecidableRel timeLE :=
  fun a b => inferInstanceAs (Decidable (a.time ≤ b.time))

instance : IsTotal DayReading timeLE := ⟨fun a b => le_total a.time b.time⟩

instance : IsTrans DayReading timeLE := ⟨fun _ _ _ h1 h2 => le_trans h1 h2⟩

instance : IsRefl DayReading timeLE := ⟨fun a => le_refl a.time⟩

/-- The readings of the group whose time lies in the half-open window
[t, t + W): source line 175-178 (main) / 128-131 (runonce); the filter runs
over the whole day group, not only past the cursor. -/
def windowData (g : List DayReading) (t W : ℚ) : List DayReading :=
  g.filter (fun r => decide (t ≤ r.time ∧ r.time < t + W))

/-- window_data['time'].max() for a nonempty window. -/
def maxTime : List DayReading → ℚ
  | [] => 0
  | r :: rs => rs.foldl (fun m x => max m x.time) r.time

/-- window_data['time'].min() for a nonempty window. -/
def minTime : List DayReading → ℚ
  | [] => 0
  | r :: rs => rs.foldl (fun m x => min m x.time) r.time

/-- One iteration of the Part-1 while loop (main lines 169-186, runonce
lines 122-139): returns the seconds credited and the next cursor value. -/
def onStep (cfg : VibConfig) (g : List DayReading) (r : DayReading) (i : ℕ) : ℚ × ℕ :=
  if isOn cfg r.v then
    let wd := windowData g r.time (windowSeconds cfg)
    (if 1 < wd.length then min (maxTime wd - minTime wd) (windowSeconds cfg) else 0,
      i + wd.length)
  else (0, i + 1)

/-- The Part-1 while loop accumulating total_on_seconds. -/
def onGo (cfg : VibConfig) (g : List DayReading) : ℕ → ℕ → ℚ
  | 0, _ => 0
  | fuel + 1, i =>
    if h : i < g.length then
      (onStep cfg g (g.get ⟨i, h⟩) i).1 + onGo cfg g fuel (onStep cfg g (g.get ⟨i, h⟩) i).2
    else 0

/-- total_on_seconds for one day group. -/
def onSeconds (cfg : VibConfig) (g : List DayReading) : ℚ := onGo cfg g g.length 0

/-- Cycle-start / cycle-continue test of integrated_main.py (lines 201-203 and
208-211): value is not None, above positive_threshold and at most
max_vibration. -/
def condOnMain (cfg : VibConfig) (v : Option ℚ) : Bool :=
  v.isSome && vgtB v cfg.positive_threshold && vleB v cfg.max_vibration

/-- OFF-confirmation test of integrated_main.py (lines 220-222): value is None,
or at most positive_threshold, or above max_vibration. -/
def condOffMain (cfg : VibConfig) (v : Option ℚ) : Bool :=
  v.isNone || vleB v cfg.positive_threshold || vgtB v cfg.max_vibration

/-- Cycle-start / cycle-continue test of integrated_runonce.py (lines 153 and
157): no None guard; NaN fails both comparisons. -/
def condOnRun (cfg : VibConfig) (v : Option ℚ) : Bool :=
  vgtB v cfg.positive_threshold && vleB v cfg.max_vibration

/-- OFF-confirmation test of integrated_runonce.py (line 165): NaN fails both
disjuncts, so an absent reading falls into the else branch that resets the
counter. -/
def condOffRun (cfg : VibConfig) (v : Option ℚ) : Bool :=
  vleB v cfg.positive_threshold || vgtB v cfg.max_vibration

/-- Body of the OFF-confirmation loop acting on the counter: increment when the
reading confirms OFF, otherwise reset to 0 (main lines 219-225, runonce
lines 165-168). -/
def offStep (coff : Option ℚ → Bool) (v : Option ℚ) (c : ℕ) : ℕ :=
  if coff v then c + 1 else 0

/-- The slide-forward loop: advance while readings keep the cycle alive
(main lines 208-214, runonce lines 157-160). -/
def slideGo (con : Option ℚ → Bool) (g : List DayReading) : ℕ → ℕ → ℕ
  | 0, j => j
  | fuel + 1, j =>
    if h : j < g.length then
      if con (g.get ⟨j, h⟩).v then slideGo con g fuel (j + 1) else j
    else j

/-- The OFF-confirmation loop: count consecutive confirming readings, stop at
the k-th one, leaving the cursor on it (main lines 217-233, runonce
lines 163-176). -/
def confirmGo (coff : Option ℚ → Bool) (g : List DayReading) (k : ℕ) : ℕ → ℕ → ℕ → ℕ
  | 0, _, j => j
  | fuel + 1, c, j =>
    if h : j < g.length then
      if k ≤ offStep coff (g.get ⟨j, h⟩).v c then j
      else confirmGo coff g k fuel (offStep coff (g.get ⟨j, h⟩).v c) (j + 1)
    else j

/-- The outer Part-2 while loop counting cycles (main lines 197-235, runonce
lines 150-178). -/
def cycleGo (con coff : Option ℚ → Bool) (g : List DayReading) (k : ℕ) : ℕ → ℕ → ℕ
  | 0, _ => 0
  | fuel + 1, j =>
    if h : j < g.length then
      if con (g.get ⟨j, h⟩).v then
        1 + cycleGo con coff g k fuel
            (confirmGo coff g k g.length 0 (slideGo con g g.length j))
      else cycleGo con coff g k fuel (j + 1)
    else 0

/-- cycle_count for one day group. -/
def cycleCount (con coff : Option ℚ → Bool) (k : ℕ) (g : List DayReading) : ℕ :=
  cycleGo con coff g k g.length 0

/-- Calendar date (as a day number) of a timestamp: pandas .dt.date. -/
def dateOf (t : ℚ) : ℤ := ⌊t / 86400⌋

/-- divmod(int(s // 60), 60) of the source (main lines 192-193, runonce
lines 145-146); Python divmod is floor division with floor remainder. -/
def hoursMinutes (s : ℚ) : ℤ × ℤ :=
  (Int.fdiv ⌊s / 60⌋ 60, Int.fmod ⌊s / 60⌋ 60)

/-- One element of the results list built per day (main lines 238-246, runonce
lines 181-189).  total_off_seconds is the intermediate computed at main
line 190 / runonce line 143 and feeds off_hours and off_minutes. -/
structure DayResult where
  date : ℤ
  on_hours : ℤ
  on_minutes : ℤ
  off_hours : ℤ
  off_minutes : ℤ
  total_on_seconds : ℚ
  total_off_seconds : ℚ
  cycle_count : ℕ
  deriving Repr, DecidableEq

/-- Processing of one day group (body of the for-date loop in both files). -/
def processDay (con coff : Option ℚ → Bool) (cfg : VibConfig) (g : List DayReading)
    (d : ℤ) : DayResult :=
  { date := d
    on_hours := (hoursMinutes (onSeconds cfg g)).1
    on_minutes := (hoursMinutes (onSeconds cfg g)).2
    off_hours := (hoursMinutes (86400 - onSeconds cfg g)).1
    off_minutes := (hoursMinutes (86400 - onSeconds cfg g)).2
    total_on_seconds := onSeconds cfg g
    total_off_seconds := 86400 - onSeconds cfg g
    cycle_count := cycleCount con coff cfg.consecutive_off_count g }

/-- One input row after value extraction: timestamp and the extracted value of
the designated channel (sZ in both call sites). -/
structure Row where
  time : ℚ
  sZ : Option ℚ
  deriving Repr, DecidableEq

/-- integrated_main.py pipeline from an extracted value to the engine value. -/
def toDayReadingMain (r : Row) : DayReading := ⟨r.time, cleanMain r.sZ⟩

/-- integrated_runonce.py pipeline from an extracted value to the engine
value. -/
def toDayReadingRun (r : Row) : DayReading := ⟨r.time, cleanRun r.sZ⟩

/-- The day group handed to the per-day loops: rows of that date, sorted by
time (groupby('date') then sort_values('time')). -/
def groupFor (rows : List DayReading) (d : ℤ) : List DayReading :=
  List.insertionSort timeLE (rows.filter (fun r => decide (dateOf r.time = d)))

/-- The distinct dates of the batch in ascending order, as groupby iterates
them. -/
def datesOf (rows : List DayReading) : List ℤ :=
  List.insertionSort (· ≤ ·) (rows.map (fun r => dateOf r.time)).dedup

/-- The per-day results list, one record per calendar date present in the
batch. -/
def processWith (con coff : Option ℚ → Bool) (cfg : VibConfig)
    (rows : List DayReading) : List DayResult :=
  (datesOf rows).map (fun d => processDay con coff cfg (groupFor rows d) d)

/-- process_vibration_data of integrated_main.py (lines 113-248), applied to
the designated channel sZ, starting from extracted values. -/
def process_vibration_data_main (cfg : VibConfig) (data : List Row) : List DayResult :=
  processWith (condOnMain cfg) (condOffMain cfg) cfg (data.map toDayReadingMain)

/-- process_vibration_data of integrated_runonce.py (lines 72-191), starting
from extracted values of its hard-coded channel sZ. -/
def process_vibration_data_runonce (cfg : VibConfig) (data : List Row) : List DayResult :=
  processWith (condOnRun cfg) (condOffRun cfg) cfg (data.map toDayReadingRun)

/-- Configuration of the C1 scenario: threshold 0.41, window 15 minutes, and
the call-site constants max_vibration 3.0 and consecutive_off_count 100. -/
def cfgC1 : VibConfig :=
  { positive_threshold := 41/100
    negative_threshold := -41/100
    window_size := 15
    max_vibration := 3
    consecutive_off_count := 100 }

/-- The three readings of the C1 scenario: value 0.1 at t=0, 0.5 at t=5min,
0.6 at t=8min, all on calendar day 0. -/
def rowsC1 : List Row := [⟨0, some (1/10)⟩, ⟨300, some (1/2)⟩, ⟨480, some (3/5)⟩]

/-- Decimal hours persisted as the op_hours metric by insert_metrics_to_db
(integrated_main.py line 270, integrated_runonce.py line 259):
on_hours + on_minutes / 60. -/
def opHoursDecimal (r : DayResult) : ℚ := (r.on_hours : ℚ) + (r.on_minutes : ℚ) / 60

/-- Seconds of computed ON time that the persisted decimal-hours value
drops. -/
def discardedSeconds (r : DayResult) : ℚ :=
  r.total_on_seconds - 3600 * opHoursDecimal r

/-- The day record the code actually produces for the C1 scenario. -/
def dayResultC1 : DayResult :=
  { date := 0
    on_hours := 0
    on_minutes := 3
    off_hours := 23
    off_minutes := 57
    total_on_seconds := 180
    total_off_seconds := 86220
    cycle_count := 1 }

/-- Configuration used by the divergence counterexamples: scenario thresholds
with off_confirmation_count 2 so that confirmation can complete quickly. -/
def cfgAbs : VibConfig :=
  { positive_threshold := 41/100
    negative_threshold := -41/100
    window_size := 15
    max_vibration := 3
    consecutive_off_count := 2 }

/-- Batch with an absent sZ value in the middle of an OFF run. -/
def rowsAbs : List Row :=
  [⟨0, some (1/2)⟩, ⟨60, some (1/10)⟩, ⟨120, none⟩, ⟨180, some (1/2)⟩]

/-- Batch of two ON readings 59.5 seconds apart. -/
def rowsHalf : List Row := [⟨0, some (1/2)⟩, ⟨119/2, some (1/2)⟩]

/-- The sorted day group of the C1 scenario, as cleaned day readings. -/
def gC5 : List DayReading := [⟨0, some (1/10)⟩, ⟨300, some (1/2)⟩, ⟨480, some (3/5)⟩]

/-- Python values as they appear in a parsed sensor_readings payload. -/
inductive PyVal where
  | pyNone : PyVal
  | pyBool : Bool → PyVal
  | pyInt : ℤ → PyVal
  | pyNum : ℚ → PyVal
  | pyStr : String → PyVal
  | pyList : List PyVal → PyVal
  | pyDict : List (String × PyVal) → PyVal

/-- Exception kinds that can arise inside extract_sensor_value.  The source
catches jsonDecodeError, attributeError and keyError at the top and
valueError together with typeError around the float() call only. -/
inductive PyErr where
  | typeError : PyErr
  | jsonDecodeError : PyErr
  | attributeError : PyErr
  | keyError : PyErr
  deriving Repr, DecidableEq

/-- Python iteration: lists yield their items, strings yield their characters
as one-character strings, dicts yield their keys; scalars are not iterable
and raise TypeError. -/
def pyIter : PyVal → Except PyErr (List PyVal)
  | .pyList xs => .ok xs
  | .pyStr s => .ok (s.toList.map (fun c => .pyStr c.toString))
  | .pyDict entries => .ok (entries.map (fun e => PyVal.pyStr e.1))
  | _ => .error .typeError

/-- Python subscripting with a string key: only dicts support it (missing key
raises KeyError); strings, lists and scalars raise TypeError.  The entry list
models a Python dict, whose keys are distinct, so taking the first binding of
the key is exact. -/
def pySubscript : PyVal → String → Except PyErr PyVal
  | .pyDict entries, key =>
    match entries.find? (fun e => decide (e.1 = key)) with
    | some e => .ok e.2
    | none => .error .keyError
  | _, _ => .error .typeError

/-- Python equality between a value and a string: true only for the equal
string, false (without raising) for every other value. -/
def pyEqStr : PyVal → String → Bool
  | .pyStr t, s => decide (t = s)
  | _, _ => false

/-- Digit-string value, none when empty or containing a non-digit. -/
def digitsVal : List Char → Option ℕ
  | [] => none
  | cs =>
    if cs.all Char.isDigit then
      some (cs.foldl (fun n c => 10 * n + (c.toNat - 48)) 0)
    else none

/-- A decimal-literal parser standing in for the numeric strings the Python
float() builtin accepts: optional sign, digits, optional fractional digits.
The exact set of accepted strings is irrelevant to the claims; any failure is
a ValueError, which the source catches. -/
def parseDecimal (s : String) : Option ℚ :=
  let signed : ℚ × List Char :=
    match s.toList with
    | '-' :: cs => (-1, cs)
    | '+' :: cs => (1, cs)
    | cs => (1, cs)
  let intPart := signed.2.takeWhile (fun c => decide (c ≠ '.'))
  match signed.2.dropWhile (fun c => decide (c ≠ '.')) with
  | [] => (digitsVal intPart).map (fun n => signed.1 * n)
  | _ :: fracDigits =>
    match digitsVal intPart, digitsVal fracDigits with
    | some n, some f =>
      some (signed.1 * ((n : ℚ) + (f : ℚ) / fracDigits.foldl (fun q _ => q * 10) (1 : ℚ)))
    | _, _ => none

/-- Python float(value), with its ValueError and TypeError failures collapsed
to none, exactly the exceptions the inner try of the source catches.
(float() of an overlarge int can raise OverflowError in Python; rationals are
exact, so that failure mode has no counterpart here.) -/
def pyFloatOpt : PyVal → Option ℚ
  | .pyNum q => some q
  | .pyInt n => some (n : ℚ)
  | .pyBool b => some (if b then 1 else 0)
  | .pyStr s => parseDecimal s
  | _ => none

/-- The sensor_readings argument of extract_sensor_value: either a string
handed to json.loads - whose parse fails with JSONDecodeError or yields a
Python value - or an already structured object passed through unchanged.
json.loads itself is an external library routine, represented here by its
outcome. -/
inductive SensorReadings where
  | parseFail : SensorReadings
  | parsed : PyVal → SensorReadings
  | obj : PyVal → SensorReadings

/-- JSON object key of the channel name. -/
def sensorTypeKey : String := "sensor_type"

/-- JSON object key of the channel value. -/
def valueKey : String := "value"

/-- The designated channel of both call sites. -/
def sZname : String := "sZ"

/-- The for-loop of extract_sensor_value (main lines 102-109, runonce
lines 61-68): first entry whose sensor_type equals the target wins; its value
goes through float() with ValueError/TypeError collapsed to None; errors of
subscripting propagate. -/
def extractLoop (sensor_type : String) : List PyVal → Except PyErr (Option ℚ)
  | [] => .ok none
  | r :: rs =>
    match pySubscript r sensorTypeKey with
    | .error e => .error e
    | .ok sval =>
      if pyEqStr sval sensor_type then
        match pySubscript r valueKey with
        | .error e => .error e
        | .ok value => .ok (pyFloatOpt value)
      else extractLoop sensor_type rs

/-- extract_sensor_value (integrated_main.py lines 94-111, integrated_runonce
lines 53-70): parse strings, iterate the entries, and catch JSONDecodeError,
AttributeError and KeyError - but not TypeError - returning None. -/
def extract_sensor_value (sr : SensorReadings) (sensor_type : String) :
    Except PyErr (Option ℚ) :=
  let body : Except PyErr (Option ℚ) :=
    match sr with
    | .parseFail => .error .jsonDecodeError
    | .parsed v =>
      match pyIter v with
      | .error e => .error e
      | .ok items => extractLoop sensor_type items
    | .obj v =>
      match pyIter v with
      | .error e => .error e
      | .ok items => extractLoop sensor_type items
  match body with
  | .error .jsonDecodeError => .ok none
  | .error .attributeError => .ok none
  | .error .keyError => .ok none
  | other => other

/-- Payload with two entries matching the designated channel: the first has a
non-coercible value, the second a numeric one. -/
def payloadTwoMatches : SensorReadings :=
  SensorReadings.obj (PyVal.pyList
    [PyVal.pyDict [(sensorTypeKey, PyVal.pyStr sZname), (valueKey, PyVal.pyStr sensorTypeKey)],
      PyVal.pyDict [(sensorTypeKey, PyVal.pyStr sZname), (valueKey, PyVal.pyInt 9)]])

/-- Conservation of the 86400-second day, stated for any per-day record the
engine produces. -/
theorem processWith_conservation (con coff : Option ℚ → Bool) (cfg : VibConfig)
    (rows : List DayReading) (rec : DayResult) (h : rec ∈ processWith con coff cfg rows) :
    rec.total_on_seconds + rec.total_off_seconds = 86400 ∧
      rec.total_off_seconds = 86400 - rec.total_on_seconds := by
  rcases List.mem_map.mp h with ⟨d, _, rfl⟩
  refine ⟨?_, rfl⟩
  show onSeconds cfg _ + (86400 - onSeconds cfg _) = 86400
  ring

/-- C1: the spec scenario claims on_seconds 480, off_seconds 85920 and
cycle_count 1 for the three readings 0.1 at t=0, 0.5 at t=5min, 0.6 at t=8min
with threshold 0.41 and window 15min; the code does not produce those
duration values. -/
theorem C1_counterexample :
    (process_vibration_data_main cfgC1 rowsC1).map
        (fun r => (r.total_on_seconds, r.total_off_seconds, r.cycle_count)) ≠
      [(480, 85920, 1)] := by
  decide

/-- C1 amended: the window seeded by the first ON reading (t=5min) contains
only the readings at t=5min and t=8min, so the day is credited their 180
second span: on_seconds = 180, off_seconds = 86220, cycle_count = 1. -/
theorem C1_scenario_amended :
    process_vibration_data_main cfgC1 rowsC1 = [dayResultC1] := by
  decide

/-- C2: every day record of either implementation satisfies
on_seconds + off_seconds = 86400 exactly, with off_seconds computed as
86400 - on_seconds whatever time span the day's readings cover. -/
theorem C2_conservation (cfg : VibConfig) (data : List Row) :
    (∀ rec ∈ process_vibration_data_main cfg data,
        rec.total_on_seconds + rec.total_off_seconds = 86400 ∧
          rec.total_off_seconds = 86400 - rec.total_on_seconds) ∧
      ∀ rec ∈ process_vibration_data_runonce cfg data,
        rec.total_on_seconds + rec.total_off_seconds = 86400 ∧
          rec.total_off_seconds = 86400 - rec.total_on_seconds :=
  ⟨fun rec h => processWith_conservation _ _ _ _ rec h,
    fun rec h => processWith_conservation _ _ _ _ rec h⟩

/-- C2 witness: the conservation law applied to a batch covering only 8
minutes of its day. -/
theorem C2_conservation_witness :
    dayResultC1 ∈ process_vibration_data_main cfgC1 rowsC1 ∧
      dayResultC1.total_on_seconds + dayResultC1.total_off_seconds = 86400 ∧
      dayResultC1.total_off_seconds = 86400 - dayResultC1.total_on_seconds :=
  ⟨by decide, (C2_conservation cfgC1 rowsC1).1 dayResultC1 (by decide)⟩

/-- C7: a reading is ON exactly when its value is strictly above the positive
threshold or strictly below the negative one; in particular a value equal to
either threshold is OFF (for any configuration whose negative threshold does
not exceed the positive one). -/
theorem C7_threshold_strictness (cfg : VibConfig) (x : ℚ) :
    (isOn cfg (some x) =
        (decide (x > cfg.positive_threshold) || decide (x < cfg.negative_threshold))) ∧
      (cfg.negative_threshold ≤ cfg.positive_threshold →
        isOn cfg (some cfg.positive_threshold) = false ∧
          isOn cfg (some cfg.negative_threshold) = false) := by
  refine ⟨rfl, fun h => ⟨?_, ?_⟩⟩
  · simp only [isOn, vgtB, vltB, Bool.or_eq_false_iff, decide_eq_false_iff_not]
    exact ⟨lt_irrefl _, not_lt_of_le h⟩
  · simp only [isOn, vgtB, vltB, Bool.or_eq_false_iff, decide_eq_false_iff_not]
    exact ⟨not_lt_of_le h, lt_irrefl _⟩

/-- C7 witness: at the scenario configuration, values exactly at 0.41 and
at -0.41 are both classified OFF. -/
theorem C7_threshold_strictness_witness :
    cfgC1.negative_threshold ≤ cfgC1.positive_threshold ∧
      isOn cfgC1 (some cfgC1.positive_threshold) = false ∧
      isOn cfgC1 (some cfgC1.negative_threshold) = false :=
  ⟨by decide, (C7_threshold_strictness cfgC1 0).2 (by decide)⟩

/-- The slide-forward loop depends on the cycle condition only at the values
of the group. -/
theorem slideGo_congr (con1 con2 : Option ℚ → Bool) (g : List DayReading)
    (hcon : ∀ r ∈ g, con1 r.v = con2 r.v) :
    ∀ fuel j, slideGo con1 g fuel j = slideGo con2 g fuel j := by
  intro fuel
  induction fuel with
  | zero => intro j; rfl
  | succ n ih =>
    intro j
    simp only [slideGo]
    split
    · next h => rw [hcon _ (List.get_mem g j h)]; split <;> simp [ih]
    · rfl

/-- The OFF-confirmation loop depends on the OFF condition only at the values
of the group. -/
theorem confirmGo_congr (coff1 coff2 : Option ℚ → Bool) (g : List DayReading) (k : ℕ)
    (hcoff : ∀ r ∈ g, coff1 r.v = coff2 r.v) :
    ∀ fuel c j, confirmGo coff1 g k fuel c j = confirmGo coff2 g k fuel c j := by
  intro fuel
  induction fuel with
  | zero => intro c j; rfl
  | succ n ih =>
    intro c j
    simp only [confirmGo, offStep]
    split
    · next h => rw [hcoff _ (List.get_mem g j h)]; split <;> simp [ih]
    · rfl

/-- The cycle counter depends on the two conditions only at the values of the
group. -/
theorem cycleGo_congr (con1 coff1 con2 coff2 : Option ℚ → Bool) (g : List DayReading)
    (k : ℕ) (hcon : ∀ r ∈ g, con1 r.v = con2 r.v)
    (hcoff : ∀ r ∈ g, coff1 r.v = coff2 r.v) :
    ∀ fuel j, cycleGo con1 coff1 g k fuel j = cycleGo con2 coff2 g k fuel j := by
  intro fuel
  induction fuel with
  | zero => intro j; rfl
  | succ n ih =>
    intro j
    simp only [cycleGo]
    split
    · next h =>
      rw [hcon _ (List.get_mem g j h), slideGo_congr con1 con2 g hcon,
        confirmGo_congr coff1 coff2 g k hcoff]
      split <;> simp [ih]
    · rfl

/-- Members of a day group are members of the batch. -/
theorem mem_of_mem_groupFor {rows : List DayReading} {d : ℤ} {r : DayReading}
    (h : r ∈ groupFor rows d) : r ∈ rows :=
  List.mem_of_mem_filter ((List.perm_insertionSort timeLE _).mem_iff.mp h)

/-- The whole per-batch computation depends on the two cycle conditions only
at the values of the batch. -/
theorem processWith_congr (con1 coff1 con2 coff2 : Option ℚ → Bool) (cfg : VibConfig)
    (rows : List DayReading) (hcon : ∀ r ∈ rows, con1 r.v = con2 r.v)
    (hcoff : ∀ r ∈ rows, coff1 r.v = coff2 r.v) :
    processWith con1 coff1 cfg rows = processWith con2 coff2 cfg rows := by
  unfold processWith
  refine List.map_congr_left fun d hd => ?_
  unfold processDay
  rw [show cycleCount con1 coff1 cfg.consecutive_off_count (groupFor rows d) =
      cycleCount con2 coff2 cfg.consecutive_off_count (groupFor rows d) from
    cycleGo_congr con1 coff1 con2 coff2 _ _
      (fun r hr => hcon r (mem_of_mem_groupFor hr))
      (fun r hr => hcoff r (mem_of_mem_groupFor hr)) _ _]

/-- C8: the two call sites are not equivalent: on a batch containing an
absent sZ reading, integrated_main.py counts 2 cycles and
integrated_runonce.py counts 1, because only the former fills absent values
with 0 before the engine runs. -/
theorem C8_counterexample :
    process_vibration_data_main cfgAbs rowsAbs ≠
      process_vibration_data_runonce cfgAbs rowsAbs := by
  decide

/-- C8 amended: on batches in which every reading carries a present sZ value,
the two implementations produce identical per-day results. -/
theorem C8_equivalence_amended (cfg : VibConfig) (data : List Row)
    (hall : ∀ r ∈ data, r.sZ.isSome) :
    process_vibration_data_main cfg data = process_vibration_data_runonce cfg data := by
  unfold process_vibration_data_main process_vibration_data_runonce
  have hmap : data.map toDayReadingMain = data.map toDayReadingRun := by
    refine List.map_congr_left fun r hr => ?_
    rcases Option.isSome_iff_exists.mp (hall r hr) with ⟨x, hx⟩
    simp [toDayReadingMain, toDayReadingRun, cleanMain, cleanRun, hx]
  rw [hmap]
  have hsome : ∀ r ∈ data.map toDayReadingRun, ∃ x : ℚ, r.v = some x := by
    intro r hr
    rcases List.mem_map.mp hr with ⟨r0, hr0, rfl⟩
    rcases Option.isSome_iff_exists.mp (hall r0 hr0) with ⟨x, hx⟩
    exact ⟨cleanValue x, by simp [toDayReadingRun, cleanRun, hx]⟩
  refine processWith_congr _ _ _ _ cfg _ ?_ ?_
  · intro r hr
    rcases hsome r hr with ⟨x, hx⟩
    simp [condOnMain, condOnRun, hx]
  · intro r hr
    rcases hsome r hr with ⟨x, hx⟩
    simp [condOffMain, condOffRun, hx]

/-- C8 witness: on the all-present scenario batch the two implementations
agree. -/
theorem C8_equivalence_amended_witness :
    (∀ r ∈ rowsC1, r.sZ.isSome) ∧
      process_vibration_data_main cfgC1 rowsC1 =
        process_vibration_data_runonce cfgC1 rowsC1 :=
  ⟨by decide, C8_equivalence_amended cfgC1 rowsC1 (by decide)⟩

/-- C4: an absent reading does not increment the OFF counter in
integrated_runonce.py: during confirmation it resets the counter from 1 to 0
instead of raising it to 2. -/
theorem C4_counterexample :
    offStep (condOffRun cfgAbs) none 1 = 0 ∧ offStep (condOffRun cfgAbs) none 1 ≠ 2 := by
  decide

/-- C4 amended: in both implementations an absent reading is never classified
ON and never starts a cycle; in integrated_main.py (where absent is filled
with 0) it increments the OFF-confirmation counter, but in
integrated_runonce.py (where it stays NaN) it resets the counter to 0. -/
theorem C4_absent_amended (cfg : VibConfig) :
    isOn cfg (cleanRun none) = false ∧
      (0 ≤ cfg.positive_threshold → cfg.negative_threshold ≤ 0 →
        isOn cfg (cleanMain none) = false) ∧
      condOnRun cfg (cleanRun none) = false ∧
      (0 ≤ cfg.positive_threshold → condOnMain cfg (cleanMain none) = false) ∧
      (∀ c, offStep (condOffMain cfg) none c = c + 1) ∧
      (0 ≤ cfg.positive_threshold → ∀ c, offStep (condOffMain cfg) (cleanMain none) c = c + 1) ∧
      (∀ c, offStep (condOffRun cfg) (cleanRun none) c = 0) := by
  have h0 : cleanMain none = some 0 := by simp [cleanMain, cleanValue]
  refine ⟨rfl, ?_, rfl, ?_, fun c => rfl, ?_, fun c => rfl⟩
  · intro hpos hneg
    rw [h0]
    simp only [isOn, vgtB, vltB, Bool.or_eq_false_iff, decide_eq_false_iff_not]
    exact ⟨not_lt_of_le hpos, not_lt_of_le hneg⟩
  · intro hpos
    rw [h0]
    simp only [condOnMain, vgtB, vleB, Bool.and_eq_false_iff, decide_eq_false_iff_not]
    exact Or.inl (Or.inr (not_lt_of_le hpos))
  · intro hpos c
    rw [h0]
    simp only [offStep, condOffMain, vleB, vgtB]
    rw [if_pos]
    simp only [Option.isNone_some, Bool.false_or, Bool.or_eq_true, decide_eq_true_eq]
    exact Or.inl hpos

/-- C4 witness: the amended statement applied to the scenario
configuration. -/
theorem C4_absent_amended_witness :
    (0 ≤ cfgC1.positive_threshold ∧ cfgC1.negative_threshold ≤ 0) ∧
      isOn cfgC1 (cleanMain none) = false ∧
      condOnMain cfgC1 (cleanMain none) = false ∧
      offStep (condOffMain cfgC1) (cleanMain none) 5 = 6 :=
  ⟨⟨by decide, by decide⟩,
    (C4_absent_amended cfgC1).2.1 (by decide) (by decide),
    (C4_absent_amended cfgC1).2.2.2.1 (by decide),
    (C4_absent_amended cfgC1).2.2.2.2.2.1 (by decide) 5⟩

/-- If no reading of the group satisfies the cycle condition, no cycle is
ever counted. -/
theorem cycleGo_zero_of_no_on (con coff : Option ℚ → Bool) (g : List DayReading) (k : ℕ)
    (hno : ∀ r ∈ g, con r.v = false) :
    ∀ fuel j, cycleGo con coff g k fuel j = 0 := by
  intro fuel
  induction fuel with
  | zero => intro j; rfl
  | succ n ih =>
    intro j
    simp only [cycleGo]
    split
    · next h => rw [hno _ (List.get_mem g j h)]; simp [ih]
    · rfl

/-- C6: a reading above max_vibration never satisfies the cycle-start
condition of either implementation, always confirms OFF (incrementing the
consecutive counter), and a day consisting only of such anomalies counts zero
cycles. -/
theorem C6_anomaly_exclusion (cfg : VibConfig) :
    (∀ x : ℚ, cfg.max_vibration < x →
        condOnMain cfg (some x) = false ∧
          condOnRun cfg (some x) = false ∧
          condOffMain cfg (some x) = true ∧
          condOffRun cfg (some x) = true ∧
          (∀ c, offStep (condOffMain cfg) (some x) c = c + 1) ∧
          (∀ c, offStep (condOffRun cfg) (some x) c = c + 1)) ∧
      ∀ (g : List DayReading) (k : ℕ),
        (∀ r ∈ g, ∃ x : ℚ, r.v = some x ∧ cfg.max_vibration < x) →
          cycleCount (condOnMain cfg) (condOffMain cfg) k g = 0 ∧
            cycleCount (condOnRun cfg) (condOffRun cfg) k g = 0 := by
  have hon : ∀ x : ℚ, cfg.max_vibration < x → condOnMain cfg (some x) = false ∧
      condOnRun cfg (some x) = false := by
    intro x hx
    constructor <;>
      · simp only [condOnMain, condOnRun, vgtB, vleB, Option.isSome_some, Bool.true_and,
          Bool.and_eq_false_iff, decide_eq_false_iff_not]
        exact Or.inr (not_le_of_lt hx)
  have hoff : ∀ x : ℚ, cfg.max_vibration < x → condOffMain cfg (some x) = true ∧
      condOffRun cfg (some x) = true := by
    intro x hx
    constructor <;>
      · simp only [condOffMain, condOffRun, vgtB, vleB, Option.isNone_some, Bool.false_or,
          Bool.or_eq_true, decide_eq_true_eq]
        exact Or.inr hx
  refine ⟨fun x hx => ⟨(hon x hx).1, (hon x hx).2, (hoff x hx).1, (hoff x hx).2,
      fun c => by simp [offStep, (hoff x hx).1], fun c => by simp [offStep, (hoff x hx).2]⟩,
    fun g k hg => ⟨?_, ?_⟩⟩
  · refine cycleGo_zero_of_no_on _ _ g k (fun r hr => ?_) _ _
    rcases hg r hr with ⟨x, hx, hlt⟩
    rw [hx]
    exact (hon x hlt).1
  · refine cycleGo_zero_of_no_on _ _ g k (fun r hr => ?_) _ _
    rcases hg r hr with ⟨x, hx, hlt⟩
    rw [hx]
    exact (hon x hlt).2

/-- C6 witness: a value of 4 with max_vibration 3 never starts a cycle,
counts toward OFF confirmation, and an all-anomalous day yields zero
cycles. -/
theorem C6_anomaly_exclusion_witness :
    cfgC1.max_vibration < (4 : ℚ) ∧
      condOnMain cfgC1 (some 4) = false ∧
      offStep (condOffMain cfgC1) (some 4) 7 = 8 ∧
      cycleCount (condOnMain cfgC1) (condOffMain cfgC1) 100 [⟨0, some 4⟩] = 0 :=
  ⟨by decide,
    ((C6_anomaly_exclusion cfgC1).1 4 (by decide)).1,
    ((C6_anomaly_exclusion cfgC1).1 4 (by decide)).2.2.2.2.1 7,
    ((C6_anomaly_exclusion cfgC1).2 [⟨0, some 4⟩] 100
      (fun r hr => by
        rw [List.mem_singleton.mp hr]
        exact ⟨4, rfl, by decide⟩)).1⟩

/-- Arithmetic of Python divmod recombination: hours + minutes/60 recovers
total minutes / 60. -/
theorem fdiv_fmod_decimal (m : ℤ) :
    ((m.fdiv 60 : ℤ) : ℚ) + ((m.fmod 60 : ℤ) : ℚ) / 60 = (m : ℚ) / 60 := by
  have h := Int.fmod_add_fdiv m 60
  have h2 : ((Int.fmod m 60 + 60 * Int.fdiv m 60 : ℤ) : ℚ) = (m : ℚ) := by rw [h]
  push_cast at h2
  linarith

/-- Bounds on what whole-minute truncation drops. -/
theorem floor_minute_bounds (s : ℚ) :
    0 ≤ s - 60 * (⌊s / 60⌋ : ℚ) ∧ s - 60 * (⌊s / 60⌋ : ℚ) < 60 := by
  have h1 : (⌊s / 60⌋ : ℚ) ≤ s / 60 := Int.floor_le _
  have h2 : s / 60 < ⌊s / 60⌋ + 1 := Int.lt_floor_add_one _
  constructor <;> linarith

/-- C9: a day of two ON readings 59.5 seconds apart is credited
on_seconds 59.5, all of which the persisted op_hours value discards - more
than the 59 seconds the claim allows. -/
theorem C9_counterexample :
    (process_vibration_data_main cfgC1 rowsHalf).map discardedSeconds = [119/2] ∧
      ¬ (119 / 2 : ℚ) ≤ 59 := by
  decide

/-- C9 amended: op_hours is hours + minutes/60 of the whole-minute truncation
of on_seconds, so each day discards at least 0 and strictly less than 60
seconds of computed ON time, and at most 59 seconds whenever on_seconds is a
whole number of seconds. -/
theorem C9_op_hours_amended (con coff : Option ℚ → Bool) (cfg : VibConfig)
    (rows : List DayReading) (rec : DayResult)
    (h : rec ∈ processWith con coff cfg rows) :
    opHoursDecimal rec = (⌊rec.total_on_seconds / 60⌋ : ℚ) / 60 ∧
      0 ≤ discardedSeconds rec ∧ discardedSeconds rec < 60 ∧
      ∀ n : ℤ, rec.total_on_seconds = (n : ℚ) → discardedSeconds rec ≤ 59 := by
  rcases List.mem_map.mp h with ⟨d, _, rfl⟩
  have e1 : opHoursDecimal (processDay con coff cfg (groupFor rows d) d) =
      (⌊onSeconds cfg (groupFor rows d) / 60⌋ : ℚ) / 60 := fdiv_fmod_decimal _
  have e2 : discardedSeconds (processDay con coff cfg (groupFor rows d) d) =
      onSeconds cfg (groupFor rows d) - 60 * (⌊onSeconds cfg (groupFor rows d) / 60⌋ : ℚ) := by
    unfold discardedSeconds
    rw [e1]
    show onSeconds cfg (groupFor rows d) - 3600 * _ = _
    ring
  refine ⟨e1, ?_, ?_, ?_⟩
  · rw [e2]; exact (floor_minute_bounds _).1
  · rw [e2]; exact (floor_minute_bounds _).2
  · intro n hn
    have hs : onSeconds cfg (groupFor rows d) = (n : ℚ) := hn
    rw [e2, hs]
    have h2 : (n : ℚ) - 60 * (⌊(n : ℚ) / 60⌋ : ℚ) < 60 := (floor_minute_bounds (n : ℚ)).2
    have h3 : ((n - 60 * ⌊(n : ℚ) / 60⌋ : ℤ) : ℚ) < ((60 : ℤ) : ℚ) := by push_cast; linarith
    have h4 : (n - 60 * ⌊(n : ℚ) / 60⌋ : ℤ) ≤ 59 := by
      have := lt_of_lt_of_le h3 (le_refl _)
      exact Int.lt_add_one_iff.mp (by exact_mod_cast h3)
    calc (n : ℚ) - 60 * (⌊(n : ℚ) / 60⌋ : ℚ)
        = ((n - 60 * ⌊(n : ℚ) / 60⌋ : ℤ) : ℚ) := by push_cast; ring
      _ ≤ 59 := by exact_mod_cast h4

/-- C9 witness: for the C1 scenario day (on_seconds 180, a whole number of
seconds) the persisted value represents exactly 180 seconds and 0 seconds are
discarded. -/
theorem C9_op_hours_amended_witness :
    dayResultC1 ∈ processWith (condOnMain cfgC1) (condOffMain cfgC1) cfgC1
        (rowsC1.map toDayReadingMain) ∧
      opHoursDecimal dayResultC1 = (⌊dayResultC1.total_on_seconds / 60⌋ : ℚ) / 60 ∧
      dayResultC1.total_on_seconds = ((180 : ℤ) : ℚ) ∧
      discardedSeconds dayResultC1 ≤ 59 :=
  ⟨by decide,
    (C9_op_hours_amended (condOnMain cfgC1) (condOffMain cfgC1) cfgC1
        (rowsC1.map toDayReadingMain) dayResultC1 (by decide)).1,
    by decide,
    (C9_op_hours_amended (condOnMain cfgC1) (condOffMain cfgC1) cfgC1
        (rowsC1.map toDayReadingMain) dayResultC1 (by decide)).2.2.2 180 (by decide)⟩

/-- Unfolding of the outer try/except of extract_sensor_value on a list
payload: only JSONDecodeError, AttributeError and KeyError are caught. -/
theorem extract_obj_list (st : String) (items : List PyVal) :
    extract_sensor_value (SensorReadings.obj (PyVal.pyList items)) st =
      match extractLoop st items with
      | .error .jsonDecodeError => .ok none
      | .error .attributeError => .ok none
      | .error .keyError => .ok none
      | other => other := rfl

/-- On a list of dict entries the extraction loop either succeeds or raises
KeyError (a missing sensor_type or value key), never TypeError. -/
theorem extractLoop_dicts (st : String) (items : List PyVal)
    (h : ∀ i ∈ items, ∃ entries, i = PyVal.pyDict entries) :
    (∃ o, extractLoop st items = .ok o) ∨ extractLoop st items = .error .keyError := by
  induction items with
  | nil => exact Or.inl ⟨none, rfl⟩
  | cons a rest ih =>
    rcases h a (List.mem_cons_self a rest) with ⟨entries, rfl⟩
    simp only [extractLoop]
    cases hfind : entries.find? (fun e => decide (e.1 = sensorTypeKey)) with
    | none =>
      simp only [pySubscript, hfind]
      exact Or.inr trivial
    | some p =>
      simp only [pySubscript, hfind]
      by_cases heq : pyEqStr p.2 st
      · rw [if_pos heq]
        cases hfind2 : entries.find? (fun e => decide (e.1 = valueKey)) with
        | none => simp only [pySubscript, hfind2]; exact Or.inr trivial
        | some q => simp only [pySubscript, hfind2]; exact Or.inl ⟨_, rfl⟩
      · rw [if_neg heq]
        exact ih (fun i hi => h i (List.mem_cons_of_mem _ hi))

/-- On a list of dict entries none of which names the target channel, the
extraction loop yields None or raises KeyError. -/
theorem extractLoop_nomatch (st : String) (items : List PyVal)
    (hd : ∀ i ∈ items, ∃ entries, i = PyVal.pyDict entries)
    (hnm : ∀ i ∈ items, ∀ w, pySubscript i sensorTypeKey = .ok w → pyEqStr w st = false) :
    extractLoop st items = .ok none ∨ extractLoop st items = .error .keyError := by
  induction items with
  | nil => exact Or.inl rfl
  | cons a rest ih =>
    rcases hd a (List.mem_cons_self a rest) with ⟨entries, rfl⟩
    simp only [extractLoop]
    cases hfind : entries.find? (fun e => decide (e.1 = sensorTypeKey)) with
    | none =>
      simp only [pySubscript, hfind]
      exact Or.inr trivial
    | some p =>
      simp only [pySubscript, hfind]
      have hfalse : pyEqStr p.2 st = false := by
        refine hnm _ (List.mem_cons_self _ _) p.2 ?_
        simp only [pySubscript, hfind]
      simp only [hfalse, Bool.false_eq_true, if_false]
      exact ih (fun i hi => hd i (List.mem_cons_of_mem _ hi))
        (fun i hi => hnm i (List.mem_cons_of_mem _ hi))

/-- C3: extraction does raise: a payload whose parsed value is a bare number
is not iterable, and the resulting TypeError is not among the exceptions the
source catches, so the call does not return absent. -/
theorem C3_counterexample :
    extract_sensor_value (SensorReadings.obj (PyVal.pyInt 5)) sZname =
        Except.error PyErr.typeError ∧
      extract_sensor_value (SensorReadings.obj (PyVal.pyInt 5)) sZname ≠ Except.ok none := by
  have e : extract_sensor_value (SensorReadings.obj (PyVal.pyInt 5)) sZname =
      Except.error PyErr.typeError := rfl
  refine ⟨e, fun h => ?_⟩
  rw [e] at h
  exact Except.noConfusion h

/-- C3 amended: extraction never raises provided the payload parses to a list
of dict entries: unparsable payloads return absent, a string payload behaves
exactly like its parsed value, list-of-dict payloads always return (no
uncaught exception), no matching entry yields absent, and when an entry
matches the target channel the first match in payload order decides the
result - float() of its value, with coercion failures collapsed to absent -
whatever entries follow.  Payloads that parse to anything other than a list
of dicts can raise an uncaught TypeError. -/
theorem C3_extraction_amended (st : String) :
    extract_sensor_value SensorReadings.parseFail st = .ok none ∧
      (∀ v : PyVal, extract_sensor_value (SensorReadings.parsed v) st =
        extract_sensor_value (SensorReadings.obj v) st) ∧
      (∀ items : List PyVal, (∀ i ∈ items, ∃ entries, i = PyVal.pyDict entries) →
        ∃ o : Option ℚ,
          extract_sensor_value (SensorReadings.obj (PyVal.pyList items)) st = .ok o) ∧
      (∀ items : List PyVal, (∀ i ∈ items, ∃ entries, i = PyVal.pyDict entries) →
        (∀ i ∈ items, ∀ w, pySubscript i sensorTypeKey = .ok w → pyEqStr w st = false) →
        extract_sensor_value (SensorReadings.obj (PyVal.pyList items)) st = .ok none) ∧
      ∀ (entries : List (String × PyVal)) (rest : List PyVal) (w v : PyVal),
        pySubscript (PyVal.pyDict entries) sensorTypeKey = .ok w → pyEqStr w st = true →
        pySubscript (PyVal.pyDict entries) valueKey = .ok v →
        extract_sensor_value
            (SensorReadings.obj (PyVal.pyList (PyVal.pyDict entries :: rest))) st =
          .ok (pyFloatOpt v) := by
  refine ⟨rfl, fun v => rfl, ?_, ?_, ?_⟩
  · intro items h
    rcases extractLoop_dicts st items h with ⟨o, ho⟩ | he
    · exact ⟨o, by rw [extract_obj_list, ho]⟩
    · exact ⟨none, by rw [extract_obj_list, he]⟩
  · intro items hd hnm
    rcases extractLoop_nomatch st items hd hnm with ho | he
    · rw [extract_obj_list, ho]
    · rw [extract_obj_list, he]
  · intro entries rest w v hw heq hv
    rw [extract_obj_list]
    simp only [extractLoop, hw, heq, if_true, hv]

/-- C3 witness: with two entries for the channel sZ, the first one (whose
value does not coerce to a number) decides the result, which is absent. -/
theorem C3_extraction_amended_witness :
    extract_sensor_value payloadTwoMatches sZname =
        .ok (pyFloatOpt (PyVal.pyStr sensorTypeKey)) ∧
      pyFloatOpt (PyVal.pyStr sensorTypeKey) = none :=
  ⟨(C3_extraction_amended sZname).2.2.2.2 _ _ _ _ rfl rfl rfl, rfl⟩

/-- Fold computing a running maximum never goes below its initial value. -/
theorem le_foldl_maxTime (l : List DayReading) :
    ∀ a : ℚ, a ≤ l.foldl (fun m x => max m x.time) a := by
  induction l with
  | nil => intro a; exact le_refl a
  | cons x xs ih =>
    intro a
    exact le_trans (le_max_left a x.time) (ih (max a x.time))

/-- Every member's time is at most the running maximum. -/
theorem mem_le_foldl_maxTime (l : List DayReading) :
    ∀ (a : ℚ) (x : DayReading), x ∈ l → x.time ≤ l.foldl (fun m x => max m x.time) a := by
  induction l with
  | nil => intro a x hx; cases hx
  | cons y ys ih =>
    intro a x hx
    rcases List.mem_cons.mp hx with rfl | hx
    · exact le_trans (le_max_right a x.time) (le_foldl_maxTime ys (max a x.time))
    · exact ih (max a y.time) x hx

/-- The running maximum respects any common upper bound. -/
theorem foldl_maxTime_le (l : List DayReading) :
    ∀ a b : ℚ, a ≤ b → (∀ x ∈ l, x.time ≤ b) →
      l.foldl (fun m x => max m x.time) a ≤ b := by
  induction l with
  | nil => intro a b hab _; exact hab
  | cons y ys ih =>
    intro a b hab hb
    exact ih _ b (max_le hab (hb y (List.mem_cons_self _ _)))
      (fun x hx => hb x (List.mem_cons_of_mem _ hx))

/-- Fold computing a running minimum never goes above its initial value. -/
theorem foldl_minTime_le (l : List DayReading) :
    ∀ a : ℚ, l.foldl (fun m x => min m x.time) a ≤ a := by
  induction l with
  | nil => intro a; exact le_refl a
  | cons x xs ih =>
    intro a
    exact le_trans (ih (min a x.time)) (min_le_left a x.time)

/-- Every member's time is at least the running minimum. -/
theorem foldl_minTime_le_mem (l : List DayReading) :
    ∀ (a : ℚ) (x : DayReading), x ∈ l → l.foldl (fun m x => min m x.time) a ≤ x.time := by
  induction l with
  | nil => intro a x hx; cases hx
  | cons y ys ih =>
    intro a x hx
    rcases List.mem_cons.mp hx with rfl | hx
    · exact le_trans (foldl_minTime_le ys (min a x.time)) (min_le_right a x.time)
    · exact ih (min a y.time) x hx

/-- The running minimum respects any common lower bound. -/
theorem le_foldl_minTime (l : List DayReading) :
    ∀ a b : ℚ, b ≤ a → (∀ x ∈ l, b ≤ x.time) →
      b ≤ l.foldl (fun m x => min m x.time) a := by
  induction l with
  | nil => intro a b hab _; exact hab
  | cons y ys ih =>
    intro a b hab hb
    exact ih _ b (le_min hab (hb y (List.mem_cons_self _ _)))
      (fun x hx => hb x (List.mem_cons_of_mem _ hx))

/-- Time of a member never exceeds maxTime. -/
theorem time_le_maxTime {g : List DayReading} {x : DayReading} (hx : x ∈ g) :
    x.time ≤ maxTime g := by
  cases g with
  | nil => cases hx
  | cons y ys =>
    rcases List.mem_cons.mp hx with rfl | hx
    · exact le_foldl_maxTime ys x.time
    · exact mem_le_foldl_maxTime ys y.time x hx

/-- maxTime of a nonempty list respects a common upper bound on times. -/
theorem maxTime_le {g : List DayReading} (hne : g ≠ []) {b : ℚ}
    (hb : ∀ x ∈ g, x.time ≤ b) : maxTime g ≤ b := by
  cases g with
  | nil => exact absurd rfl hne
  | cons y ys =>
    exact foldl_maxTime_le ys y.time b (hb y (List.mem_cons_self _ _))
      (fun x hx => hb x (List.mem_cons_of_mem _ hx))

/-- minTime never exceeds the time of a member. -/
theorem minTime_le_time {g : List DayReading} {x : DayReading} (hx : x ∈ g) :
    minTime g ≤ x.time := by
  cases g with
  | nil => cases hx
  | cons y ys =>
    rcases List.mem_cons.mp hx with rfl | hx
    · exact foldl_minTime_le ys x.time
    · exact foldl_minTime_le_mem ys y.time x hx

/-- minTime of a nonempty list respects a common lower bound on times. -/
theorem le_minTime {g : List DayReading} (hne : g ≠ []) {b : ℚ}
    (hb : ∀ x ∈ g, b ≤ x.time) : b ≤ minTime g := by
  cases g with
  | nil => exact absurd rfl hne
  | cons y ys =>
    exact le_foldl_minTime ys y.time b (hb y (List.mem_cons_self _ _))
      (fun x hx => hb x (List.mem_cons_of_mem _ hx))

/-- The window span is nonnegative. -/
theorem minTime_le_maxTime {g : List DayReading} (hne : g ≠ []) :
    minTime g ≤ maxTime g := by
  cases g with
  | nil => exact absurd rfl hne
  | cons y ys =>
    exact le_trans (minTime_le_time (List.mem_cons_self y ys))
      (time_le_maxTime (List.mem_cons_self y ys))

/-- Characterisation of window membership: the half-open interval
[t, t + W). -/
theorem mem_windowData {g : List DayReading} {t W : ℚ} {x : DayReading} :
    x ∈ windowData g t W ↔ x ∈ g ∧ t ≤ x.time ∧ x.time < t + W := by
  simp [windowData, List.mem_filter]

/-- With a positive window the seeding reading lies in its own window. -/
theorem seed_mem_windowData {g : List DayReading} {i : ℕ} (hi : i < g.length)
    {W : ℚ} (hW : 0 < W) :
    g.get ⟨i, hi⟩ ∈ windowData g (g.get ⟨i, hi⟩).time W :=
  mem_windowData.mpr ⟨List.get_mem g i hi, le_refl _, by linarith⟩

/-- Times are monotone along a sorted group. -/
theorem sorted_time_mono {g : List DayReading} (hs : List.Sorted timeLE g)
    {a b : ℕ} (ha : a < g.length) (hb : b < g.length) (hab : a ≤ b) :
    (g.get ⟨a, ha⟩).time ≤ (g.get ⟨b, hb⟩).time :=
  hs.rel_get_of_le (Fin.mk_le_mk.mpr hab)

/-- A predicate holding on all positions from i to k contributes at least
k + 1 - i elements to the filtered list. -/
theorem seg_le_length_filter (p : DayReading → Bool) (g : List DayReading) (i k : ℕ)
    (hik : i ≤ k) (hk : k < g.length)
    (hall : ∀ (j : ℕ) (hj : j < g.length), i ≤ j → j ≤ k → p (g.get ⟨j, hj⟩) = true) :
    k + 1 - i ≤ (g.filter p).length := by
  have hlen_seg : ((g.drop i).take (k + 1 - i)).length = k + 1 - i := by
    rw [List.length_take, List.length_drop]
    omega
  have hall_seg : ∀ x ∈ (g.drop i).take (k + 1 - i), p x = true := by
    intro x hx
    rcases List.mem_iff_getElem.mp hx with ⟨m, hm, hxm⟩
    have hm2 : m < k + 1 - i := by rw [hlen_seg] at hm; exact hm
    have hmi : i + m < g.length := by omega
    have hx2 : x = g.get ⟨i + m, hmi⟩ := by
      rw [← hxm, List.getElem_take, List.get_eq_getElem]
      exact (List.getElem_drop' g hmi).symm
    rw [hx2]
    exact hall (i + m) hmi (Nat.le_add_right i m) (by omega)
  have hfe : ((g.drop i).take (k + 1 - i)).filter p = (g.drop i).take (k + 1 - i) :=
    List.filter_eq_self.mpr hall_seg
  have hsplit1 : g = g.take i ++ g.drop i := (List.take_append_drop i g).symm
  have hsplit2 : g.drop i =
      (g.drop i).take (k + 1 - i) ++ (g.drop i).drop (k + 1 - i) :=
    (List.take_append_drop (k + 1 - i) (g.drop i)).symm
  calc k + 1 - i = (((g.drop i).take (k + 1 - i)).filter p).length := by
        rw [hfe, hlen_seg]
    _ ≤ ((g.drop i).filter p).length := by
        rw [show (g.drop i).filter p = ((g.drop i).take (k + 1 - i)).filter p ++
            ((g.drop i).drop (k + 1 - i)).filter p from by rw [← List.filter_append, ← hsplit2]]
        rw [List.length_append]
        omega
    _ ≤ (g.filter p).length := by
        rw [show g.filter p = (g.take i).filter p ++ (g.drop i).filter p from by
          rw [← List.filter_append, ← hsplit1]]
        rw [List.length_append]
        omega

/-- Any reading inside the window opened at position i sits strictly before
the advanced cursor i + (window length). -/
theorem window_advance {cfg : VibConfig} {g : List DayReading}
    (hsort : List.Sorted timeLE g) (hW : 0 < windowSeconds cfg)
    {i : ℕ} (hi : i < g.length) {k : ℕ} (hk : k < g.length)
    (hin : (g.get ⟨i, hi⟩).time ≤ (g.get ⟨k, hk⟩).time ∧
      (g.get ⟨k, hk⟩).time < (g.get ⟨i, hi⟩).time + windowSeconds cfg) :
    k < i + (windowData g (g.get ⟨i, hi⟩).time (windowSeconds cfg)).length := by
  have hseed : g.get ⟨i, hi⟩ ∈ windowData g (g.get ⟨i, hi⟩).time (windowSeconds cfg) :=
    seed_mem_windowData hi hW
  have hpos : 0 < (windowData g (g.get ⟨i, hi⟩).time (windowSeconds cfg)).length :=
    List.length_pos.mpr (List.ne_nil_of_mem hseed)
  by_cases hki : k < i
  · omega
  · push_neg at hki
    have hseg := seg_le_length_filter
      (fun r => decide ((g.get ⟨i, hi⟩).time ≤ r.time ∧
        r.time < (g.get ⟨i, hi⟩).time + windowSeconds cfg)) g i k hki hk ?_
    · have : (windowData g (g.get ⟨i, hi⟩).time (windowSeconds cfg)).length =
          (g.filter (fun r => decide ((g.get ⟨i, hi⟩).time ≤ r.time ∧
            r.time < (g.get ⟨i, hi⟩).time + windowSeconds cfg))).length := rfl
      omega
    · intro j hj hij hjk
      have h1 : (g.get ⟨i, hi⟩).time ≤ (g.get ⟨j, hj⟩).time :=
        sorted_time_mono hsort hi hj hij
      have h2 : (g.get ⟨j, hj⟩).time ≤ (g.get ⟨k, hk⟩).time :=
        sorted_time_mono hsort hj hk hjk
      simp only [decide_eq_true_eq]
      exact ⟨h1, lt_of_le_of_lt h2 hin.2⟩

/-- Beyond the end of the group the Part-1 loop contributes nothing. -/
theorem onGo_out (cfg : VibConfig) (g : List DayReading) :
    ∀ fuel j, g.length ≤ j → onGo cfg g fuel j = 0 := by
  intro fuel j h
  cases fuel with
  | zero => rfl
  | succ n => simp only [onGo]; rw [dif_neg (Nat.not_lt.mpr h)]

/-- Each iteration of the Part-1 loop credits a nonnegative amount. -/
theorem onStep_fst_nonneg (cfg : VibConfig) (g : List DayReading) (r : DayReading)
    (i : ℕ) : 0 ≤ (onStep cfg g r i).1 := by
  unfold onStep
  split
  · simp only
    split
    · next hlen =>
      have hne : windowData g r.time (windowSeconds cfg) ≠ [] := by
        intro he
        rw [he] at hlen
        simp at hlen
      have hmm := minTime_le_maxTime hne
      have hWn : (0 : ℚ) ≤ windowSeconds cfg := by
        unfold windowSeconds
        positivity
      exact le_min (by linarith) hWn
    · exact le_refl 0
  · exact le_refl 0

/-- The accumulated ON seconds are never negative. -/
theorem onGo_nonneg (cfg : VibConfig) (g : List DayReading) :
    ∀ fuel i, 0 ≤ onGo cfg g fuel i := by
  intro fuel
  induction fuel with
  | zero => intro i; exact le_refl 0
  | succ n ih =>
    intro i
    simp only [onGo]
    split
    · next h => exact add_nonneg (onStep_fst_nonneg cfg g _ i) (ih _)
    · exact le_refl 0

/-- Step characterisation, ON reading with at least two readings in
window. -/
theorem onStep_on_big {cfg : VibConfig} {g : List DayReading} {r : DayReading} {i : ℕ}
    (hon : isOn cfg r.v = true)
    (hlen : 1 < (windowData g r.time (windowSeconds cfg)).length) :
    onStep cfg g r i =
      (min (maxTime (windowData g r.time (windowSeconds cfg)) -
          minTime (windowData g r.time (windowSeconds cfg))) (windowSeconds cfg),
        i + (windowData g r.time (windowSeconds cfg)).length) := by
  simp [onStep, hon, hlen]

/-- Step characterisation, ON reading alone in its window. -/
theorem onStep_on_small {cfg : VibConfig} {g : List DayReading} {r : DayReading} {i : ℕ}
    (hon : isOn cfg r.v = true)
    (hlen : ¬ 1 < (windowData g r.time (windowSeconds cfg)).length) :
    onStep cfg g r i = (0, i + (windowData g r.time (windowSeconds cfg)).length) := by
  simp [onStep, hon, hlen]

/-- Step characterisation, OFF reading. -/
theorem onStep_off {cfg : VibConfig} {g : List DayReading} {r : DayReading} {i : ℕ}
    (hon : isOn cfg r.v = false) :
    onStep cfg g r i = (0, i + 1) := by
  simp [onStep, hon]

/-- Core bound: from any position of a sorted group the Part-1 loop credits at
most the time remaining up to the latest reading. -/
theorem onGo_le (cfg : VibConfig) (g : List DayReading) (hsort : List.Sorted timeLE g)
    (hW : 0 < windowSeconds cfg) :
    ∀ fuel i, ∀ hi : i < g.length,
      onGo cfg g fuel i ≤ maxTime g - (g.get ⟨i, hi⟩).time := by
  intro fuel
  induction fuel with
  | zero =>
    intro i hi
    have hges := time_le_maxTime (List.get_mem g i hi)
    show (0 : ℚ) ≤ maxTime g - (g.get ⟨i, hi⟩).time
    linarith
  | succ n ih =>
    intro i hi
    have hges := time_le_maxTime (List.get_mem g i hi)
    simp only [onGo]
    rw [dif_pos hi]
    by_cases hon : isOn cfg (g.get ⟨i, hi⟩).v
    · have hseed : g.get ⟨i, hi⟩ ∈ windowData g (g.get ⟨i, hi⟩).time (windowSeconds cfg) :=
        seed_mem_windowData hi hW
      have hwdne : windowData g (g.get ⟨i, hi⟩).time (windowSeconds cfg) ≠ [] :=
        List.ne_nil_of_mem hseed
      have hlenpos : 0 < (windowData g (g.get ⟨i, hi⟩).time (windowSeconds cfg)).length :=
        List.length_pos.mpr hwdne
      have hmaxh : maxTime (windowData g (g.get ⟨i, hi⟩).time (windowSeconds cfg)) ≤
          maxTime g :=
        maxTime_le hwdne (fun x hx => time_le_maxTime (List.mem_of_mem_filter hx))
      have hminh : (g.get ⟨i, hi⟩).time ≤
          minTime (windowData g (g.get ⟨i, hi⟩).time (windowSeconds cfg)) :=
        le_minTime hwdne (fun x hx => (mem_windowData.mp hx).2.1)
      by_cases hlen : 1 < (windowData g (g.get ⟨i, hi⟩).time (windowSeconds cfg)).length
      · rw [onStep_on_big hon hlen]
        show min (maxTime (windowData g (g.get ⟨i, hi⟩).time (windowSeconds cfg)) -
            minTime (windowData g (g.get ⟨i, hi⟩).time (windowSeconds cfg)))
            (windowSeconds cfg) +
            onGo cfg g n
              (i + (windowData g (g.get ⟨i, hi⟩).time (windowSeconds cfg)).length) ≤
          maxTime g - (g.get ⟨i, hi⟩).time
        by_cases hnext :
            i + (windowData g (g.get ⟨i, hi⟩).time (windowSeconds cfg)).length < g.length
        · have hIH := ih _ hnext
          have hile : i ≤ i + (windowData g (g.get ⟨i, hi⟩).time (windowSeconds cfg)).length :=
            Nat.le_add_right i _
          have hgei : (g.get ⟨i, hi⟩).time ≤
              (g.get ⟨i + (windowData g (g.get ⟨i, hi⟩).time
                (windowSeconds cfg)).length, hnext⟩).time :=
            sorted_time_mono hsort hi hnext hile
          have hge_tW : (g.get ⟨i, hi⟩).time + windowSeconds cfg ≤
              (g.get ⟨i + (windowData g (g.get ⟨i, hi⟩).time
                (windowSeconds cfg)).length, hnext⟩).time := by
            by_contra hcon
            push_neg at hcon
            have := window_advance hsort hW hi hnext ⟨hgei, hcon⟩
            omega
          have hminW : min (maxTime (windowData g (g.get ⟨i, hi⟩).time (windowSeconds cfg)) -
              minTime (windowData g (g.get ⟨i, hi⟩).time (windowSeconds cfg)))
              (windowSeconds cfg) ≤ windowSeconds cfg := min_le_right _ _
          linarith
        · push_neg at hnext
          rw [onGo_out cfg g n _ hnext]
          have hminspan : min (maxTime (windowData g (g.get ⟨i, hi⟩).time (windowSeconds cfg)) -
              minTime (windowData g (g.get ⟨i, hi⟩).time (windowSeconds cfg)))
              (windowSeconds cfg) ≤
              maxTime (windowData g (g.get ⟨i, hi⟩).time (windowSeconds cfg)) -
                minTime (windowData g (g.get ⟨i, hi⟩).time (windowSeconds cfg)) :=
            min_le_left _ _
          linarith
      · rw [onStep_on_small hon hlen]
        have hlen1 : (windowData g (g.get ⟨i, hi⟩).time (windowSeconds cfg)).length = 1 := by
          omega
        rw [hlen1]
        show (0 : ℚ) + onGo cfg g n (i + 1) ≤ maxTime g - (g.get ⟨i, hi⟩).time
        by_cases hi1 : i + 1 < g.length
        · have hIH := ih (i + 1) hi1
          have hmono := sorted_time_mono hsort hi hi1 (Nat.le_succ i)
          linarith
        · push_neg at hi1
          rw [onGo_out cfg g n (i + 1) hi1]
          linarith
    · rw [onStep_off (Bool.eq_false_iff.mpr hon)]
      show (0 : ℚ) + onGo cfg g n (i + 1) ≤ maxTime g - (g.get ⟨i, hi⟩).time
      by_cases hi1 : i + 1 < g.length
      · have hIH := ih (i + 1) hi1
        have hmono := sorted_time_mono hsort hi hi1 (Nat.le_succ i)
        linarith
      · push_neg at hi1
        rw [onGo_out cfg g n (i + 1) hi1]
        linarith

/-- Day groups are sorted by time. -/
theorem sorted_groupFor (rows : List DayReading) (d : ℤ) :
    List.Sorted timeLE (groupFor rows d) :=
  List.sorted_insertionSort timeLE _

/-- Every member of the day group carries that date. -/
theorem mem_groupFor_date {rows : List DayReading} {d : ℤ} {x : DayReading}
    (hx : x ∈ groupFor rows d) : dateOf x.time = d := by
  have h1 := (List.perm_insertionSort timeLE _).mem_iff.mp hx
  have h2 := List.of_mem_filter h1
  simpa using h2

/-- A date of the batch has a nonempty day group. -/
theorem groupFor_ne_nil {rows : List DayReading} {d : ℤ} (h : d ∈ datesOf rows) :
    groupFor rows d ≠ [] := by
  have h1 : d ∈ (rows.map (fun r => dateOf r.time)).dedup :=
    (List.perm_insertionSort (· ≤ ·) _).mem_iff.mp h
  have h2 : d ∈ rows.map (fun r => dateOf r.time) := List.mem_dedup.mp h1
  rcases List.mem_map.mp h2 with ⟨r, hr, hd⟩
  intro hnil
  have hmem : r ∈ groupFor rows d := by
    refine (List.perm_insertionSort timeLE _).mem_iff.mpr ?_
    exact List.mem_filter.mpr ⟨hr, by simpa using hd⟩
  rw [hnil] at hmem
  cases hmem

/-- A timestamp of calendar date d lies in the half-open day
[86400 d, 86400 d + 86400). -/
theorem dateOf_bounds {t : ℚ} {d : ℤ} (h : dateOf t = d) :
    86400 * (d : ℚ) ≤ t ∧ t < 86400 * (d : ℚ) + 86400 := by
  unfold dateOf at h
  subst h
  have h1 : (⌊t / 86400⌋ : ℚ) ≤ t / 86400 := Int.floor_le _
  have h2 : t / 86400 < ⌊t / 86400⌋ + 1 := Int.lt_floor_add_one _
  constructor <;> linarith

/-- C5: one scan step of the daily aggregation behaves as specified: the
window is the half-open interval [t, t+W); an OFF reading advances the cursor
by one with no credit; an ON reading with company in its window credits
min(window length, max time - min time of the window) and advances the cursor
past every reading of the window; an isolated ON reading credits nothing and
advances by one; and each loop iteration adds the step credit to the
accumulator before resuming at the stepped cursor. -/
theorem C5_window_aggregation (cfg : VibConfig) (g : List DayReading)
    (hsort : List.Sorted timeLE g) (hW : 0 < windowSeconds cfg)
    (i : ℕ) (hi : i < g.length) (r : DayReading) (hr : r = g.get ⟨i, hi⟩)
    (wd : List DayReading) (hwd : wd = windowData g r.time (windowSeconds cfg)) :
    (∀ x, x ∈ wd ↔ x ∈ g ∧ r.time ≤ x.time ∧ x.time < r.time + windowSeconds cfg) ∧
      (isOn cfg r.v = false → onStep cfg g r i = (0, i + 1)) ∧
      (isOn cfg r.v = true → 1 < wd.length →
        onStep cfg g r i =
          (min (windowSeconds cfg) (maxTime wd - minTime wd), i + wd.length)) ∧
      (isOn cfg r.v = true → wd.length = 1 → onStep cfg g r i = (0, i + 1)) ∧
      (isOn cfg r.v = true →
        ∀ (k : ℕ) (hk : k < g.length), g.get ⟨k, hk⟩ ∈ wd → k < i + wd.length) ∧
      ∀ fuel, onGo cfg g (fuel + 1) i =
        (onStep cfg g r i).1 + onGo cfg g fuel (onStep cfg g r i).2 := by
  subst hwd
  refine ⟨fun x => mem_windowData, fun hoff => onStep_off hoff, ?_, ?_, ?_, ?_⟩
  · intro hon hlen
    rw [onStep_on_big hon hlen, min_comm]
  · intro hon hlen
    have h2 : ¬ 1 < (windowData g r.time (windowSeconds cfg)).length := by omega
    rw [onStep_on_small hon h2, hlen]
  · intro hon k hk hkin
    subst hr
    have hmem := mem_windowData.mp hkin
    exact window_advance hsort hW hi hk ⟨hmem.2.1, hmem.2.2⟩
  · intro fuel
    subst hr
    simp only [onGo]
    rw [dif_pos hi]

/-- C5 witness: for the scenario day group, the step at the first ON reading
credits the capped span of its two-reading window and advances the cursor
past both. -/
theorem C5_window_aggregation_witness :
    List.Sorted timeLE gC5 ∧ (0 : ℚ) < windowSeconds cfgC1 ∧
      onStep cfgC1 gC5 (gC5.get ⟨1, by decide⟩) 1 =
        (min (windowSeconds cfgC1)
          (maxTime (windowData gC5 (gC5.get ⟨1, by decide⟩).time (windowSeconds cfgC1)) -
            minTime (windowData gC5 (gC5.get ⟨1, by decide⟩).time (windowSeconds cfgC1))),
          1 + (windowData gC5 (gC5.get ⟨1, by decide⟩).time (windowSeconds cfgC1)).length) :=
  ⟨by decide, by decide,
    (C5_window_aggregation cfgC1 gC5 (by decide) (by decide) 1 (by decide) _ rfl _
      rfl).2.2.1 (by decide) (by decide)⟩

/-- Bounds for any record the engine produces, via the day partition: a day
group holds timestamps of one calendar day only, so at most 86400 seconds can
be credited. -/
theorem processWith_on_bounds (con coff : Option ℚ → Bool) (cfg : VibConfig)
    (rows : List DayReading) (hw : 0 < cfg.window_size) :
    ∀ rec ∈ processWith con coff cfg rows,
      0 ≤ rec.total_on_seconds ∧ rec.total_on_seconds ≤ 86400 ∧
        0 ≤ rec.total_off_seconds := by
  intro rec hrec
  rcases List.mem_map.mp hrec with ⟨d, hd, rfl⟩
  have hWpos : (0 : ℚ) < windowSeconds cfg := by
    unfold windowSeconds
    have hcast : (0 : ℚ) < (cfg.window_size : ℚ) := by exact_mod_cast hw
    linarith
  have hne : groupFor rows d ≠ [] := groupFor_ne_nil hd
  have hlenpos : 0 < (groupFor rows d).length := List.length_pos.mpr hne
  have hsort := sorted_groupFor rows d
  have hnonneg : 0 ≤ onSeconds cfg (groupFor rows d) :=
    onGo_nonneg cfg (groupFor rows d) (groupFor rows d).length 0
  have hle : onSeconds cfg (groupFor rows d) ≤
      maxTime (groupFor rows d) - ((groupFor rows d).get ⟨0, hlenpos⟩).time :=
    onGo_le cfg (groupFor rows d) hsort hWpos (groupFor rows d).length 0 hlenpos
  have hmaxb : maxTime (groupFor rows d) ≤ 86400 * (d : ℚ) + 86400 :=
    maxTime_le hne (fun x hx => le_of_lt (dateOf_bounds (mem_groupFor_date hx)).2)
  have h0b : 86400 * (d : ℚ) ≤ ((groupFor rows d).get ⟨0, hlenpos⟩).time :=
    (dateOf_bounds (mem_groupFor_date (List.get_mem _ 0 hlenpos))).1
  have hbound : onSeconds cfg (groupFor rows d) ≤ 86400 := by linarith
  refine ⟨hnonneg, hbound, ?_⟩
  show (0 : ℚ) ≤ 86400 - onSeconds cfg (groupFor rows d)
  linarith

/-- C10: with a positive window every day record of either implementation has
0 <= on_seconds <= 86400 and a nonnegative off_seconds; the day partition
guarantees the single-calendar-day premise. -/
theorem C10_bounds (cfg : VibConfig) (data : List Row) (hw : 0 < cfg.window_size) :
    (∀ rec ∈ process_vibration_data_main cfg data,
        0 ≤ rec.total_on_seconds ∧ rec.total_on_seconds ≤ 86400 ∧
          0 ≤ rec.total_off_seconds) ∧
      ∀ rec ∈ process_vibration_data_runonce cfg data,
        0 ≤ rec.total_on_seconds ∧ rec.total_on_seconds ≤ 86400 ∧
          0 ≤ rec.total_off_seconds :=
  ⟨fun rec h => processWith_on_bounds _ _ cfg _ hw rec h,
    fun rec h => processWith_on_bounds _ _ cfg _ hw rec h⟩

/-- C10 witness: bounds hold for the concrete scenario record. -/
theorem C10_bounds_witness :
    0 < cfgC1.window_size ∧ dayResultC1 ∈ process_vibration_data_main cfgC1 rowsC1 ∧
      0 ≤ dayResultC1.total_on_seconds ∧ dayResultC1.total_on_seconds ≤ 86400 ∧
      0 ≤ dayResultC1.total_off_seconds :=
  ⟨by decide, by decide,
    (C10_bounds cfgC1 rowsC1 (by decide)).1 dayResultC1 (by decide)⟩
